import Mathlib

/-!
Verification of the real-time session/connection subsystem of the
`web-claude` repository: the `SessionStore` (services/state/session-store),
the `ConnectionManager`, `MessageHandler` and `StreamBroadcaster`
(packages/server/src/websocket), and the browser-side `WebSocketClient`
(packages/web/src/lib/websocket-client).  The TypeScript code is embedded
shallowly: JS objects become a `Json` value type, the insertion-ordered
`Map` becomes an association list, `Date.now()` and `randomUUID()` become
explicit parameters, and thrown exceptions become `Except` results.
-/

namespace WebClaude

/-- Model of a JavaScript/JSON value as produced by `JSON.parse` and as
passed around untyped at runtime (`as any` in the tests). -/
inductive Json where
  | null
  | bool (b : Bool)
  | num (n : Int)
  | str (s : String)
  | arr (elems : List Json)
  | obj (fields : List (String × Json))
deriving Repr

/-- Property access `v.k` on a JS value: member lookup on an object,
`undefined` (here `none`) otherwise. -/
def jsField : Json → String → Option Json
  | .obj fields, k => fields.lookup k
  | _, _ => none

/-- JavaScript truthiness of a possibly-`undefined` value: `undefined`,
`null`, `false`, `0` and the empty string are falsy. -/
def truthy : Option Json → Bool
  | none => false
  | some .null => false
  | some (.bool b) => b
  | some (.num n) => n != 0
  | some (.str s) => s != ""
  | some (.arr _) => true
  | some (.obj _) => true

/-- Check `typeof v === 'string'` for a possibly-`undefined` value. -/
def isStr : Option Json → Bool
  | some (.str _) => true
  | _ => false

/-- Check `['user', 'assistant'].includes(v)`: strict equality against the
two role strings (a non-string never compares equal under `===`). -/
def roleIncluded : Option Json → Bool
  | some (.str s) => s == "user" || s == "assistant"
  | _ => false

/-! Association-list operations with the semantics of a JavaScript `Map`
(insertion-ordered; `set` on an existing key updates in place, otherwise
appends; `delete` removes the entry). -/

/-- `Map.get`. -/
def alGet {β : Type} : List (String × β) → String → Option β
  | [], _ => none
  | (k', v) :: rest, k => if k' = k then some v else alGet rest k

/-- `Map.set`: replace in place if the key exists, else append. -/
def alSet {β : Type} : List (String × β) → String → β → List (String × β)
  | [], k, v => [(k, v)]
  | (k', v') :: rest, k, v =>
      if k' = k then (k, v) :: rest else (k', v') :: alSet rest k v

/-- `Map.delete`: remove the entry with the key, if present. -/
def alDelete {β : Type} : List (String × β) → String → List (String × β)
  | [], _ => []
  | (k', v') :: rest, k => if k' = k then rest else (k', v') :: alDelete rest k

/-! The session store data model (services/state/types.ts), with message
objects kept as the raw `Json` values the caller passed in. -/

/-- One conversation session (`Session` in types.ts). -/
structure Session where
  id : String
  messages : List Json
  createdAt : Int
  lastActivity : Int
  metadata : List (String × Json)
deriving Repr

/-- The store's internal `Map<string, Session>`. -/
abbrev Store := List (String × Session)

/-- Configuration for the store (`SessionStoreConfig`, all fields filled
in from `DEFAULT_CONFIG`). -/
structure SessionStoreConfig where
  maxSessions : Nat
  maxMessagesPerSession : Nat
  sessionTTL : Int
  cleanupInterval : Int
deriving Repr

/-- Default configuration values from session-store.ts / config.ts. -/
def DEFAULT_CONFIG : SessionStoreConfig :=
  { maxSessions := 1000
    maxMessagesPerSession := 1000
    sessionTTL := 24 * 60 * 60 * 1000
    cleanupInterval := 60 * 60 * 1000 }

/-- Errors thrown by the store (types.ts error classes). -/
inductive StoreError where
  | sessionNotFound (id : String)
  | sessionLimitExceeded (max : Nat)
  | invalidMessage (reason : String)
deriving Repr, DecidableEq

/-- Validate a message object (`SessionStore.validateMessage`).  Returns
the error reason, or `none` when the message is acceptable.  (In JS a
`null`/`undefined` message would raise a `TypeError` on the first property
access rather than an `InvalidMessageError`; both reject the message
before any store mutation.) -/
def validateMessage (m : Json) : Option String :=
  if !(truthy (jsField m "id") && isStr (jsField m "id")) then
    some "Message must have a string ID"
  else if !(truthy (jsField m "role") && roleIncluded (jsField m "role")) then
    some "Message role must be \"user\" or \"assistant\""
  else if !(isStr (jsField m "content")) then
    some "Message content must be a string"
  else
    match jsField m "timestamp" with
    | some (.num t) => if t ≤ 0 then some "Message timestamp must be a positive number" else none
    | _ => some "Message timestamp must be a positive number"

/-- The scan of `evictOldestSession`: fold over the entries carrying the
current `(oldestSessionId, oldestActivity)`; the accumulator starts as
`(null, Infinity)`, modelled by `none`. -/
def evictScan : Store → Option (String × Int) → Option (String × Int)
  | [], acc => acc
  | (k, s) :: rest, acc =>
      match acc with
      | none => evictScan rest (some (k, s.lastActivity))
      | some (k0, a0) =>
          if s.lastActivity < a0 then evictScan rest (some (k, s.lastActivity))
          else evictScan rest (some (k0, a0))

/-- The session id `evictOldestSession` would delete (`null` when the
store is empty). -/
def evictOldestChoice (st : Store) : Option String :=
  (evictScan st none).map Prod.fst

/-- `SessionStore.evictOldestSession`: delete the entry with the smallest
`lastActivity`; throw `SessionLimitExceededError` when the chosen id is
not truthy (the store was empty, or the minimal id is the empty string). -/
def evictOldestSession (cfg : SessionStoreConfig) (st : Store) : Except StoreError Store :=
  match evictOldestChoice st with
  | some id =>
      if id = "" then .error (.sessionLimitExceeded cfg.maxSessions)
      else .ok (alDelete st id)
  | none => .error (.sessionLimitExceeded cfg.maxSessions)

/-- A freshly created session record. -/
def freshSession (id : String) (now : Int) : Session :=
  { id := id, messages := [], createdAt := now, lastActivity := now, metadata := [] }

/-- The id chosen by `createSession`: `sessionId || randomUUID()`, where a
missing or falsy (empty) argument falls back to the fresh UUID. -/
def csId (providedId : Option String) (freshId : String) : String :=
  match providedId with
  | some s => if s = "" then freshId else s
  | none => freshId

/-- `SessionStore.createSession`.  `providedId` is the optional argument;
`freshId` stands for the `randomUUID()` drawn when the argument is absent
or falsy (the empty string); `now` is `Date.now()`. -/
def createSession (cfg : SessionStoreConfig) (st : Store) (providedId : Option String)
    (freshId : String) (now : Int) : Except StoreError (Store × Session) :=
  let afterCap : Except StoreError Store :=
    if st.length ≥ cfg.maxSessions then evictOldestSession cfg st else .ok st
  match afterCap with
  | .error e => .error e
  | .ok st' =>
      let id := csId providedId freshId
      let session := freshSession id now
      .ok (alSet st' id session, session)

/-- `SessionStore.getSession` (non-throwing lookup). -/
def getSession (st : Store) (sessionId : String) : Option Session :=
  alGet st sessionId

/-- `SessionStore.deleteSession`. -/
def deleteSession (st : Store) (sessionId : String) : Bool × Store :=
  ((alGet st sessionId).isSome, alDelete st sessionId)

/-- `SessionStore.addMessage`. -/
def addMessage (cfg : SessionStoreConfig) (st : Store) (sessionId : String)
    (message : Json) (now : Int) : Except StoreError Store :=
  match alGet st sessionId with
  | none => .error (.sessionNotFound sessionId)
  | some session =>
      match validateMessage message with
      | some reason => .error (.invalidMessage reason)
      | none =>
          let msgs :=
            if session.messages.length ≥ cfg.maxMessagesPerSession then
              session.messages.tail
            else session.messages
          .ok (alSet st sessionId
            { session with messages := msgs ++ [message], lastActivity := now })

/-- `SessionStore.getMessages`: returns a copy of the list (the copying is
observable only under the aliasing model further below). -/
def getMessages (st : Store) (sessionId : String) : Except StoreError (List Json) :=
  match alGet st sessionId with
  | none => .error (.sessionNotFound sessionId)
  | some session => .ok session.messages

/-- Spread-merge `{ ...old, ...patch }` of two JS objects. -/
def spreadMerge (old patch : List (String × Json)) : List (String × Json) :=
  patch.foldl (fun acc kv => alSet acc kv.1 kv.2) old

/-- `SessionStore.updateMetadata`. -/
def updateMetadata (st : Store) (sessionId : String) (patch : List (String × Json))
    (now : Int) : Except StoreError Store :=
  match alGet st sessionId with
  | none => .error (.sessionNotFound sessionId)
  | some session =>
      .ok (alSet st sessionId
        { session with metadata := spreadMerge session.metadata patch, lastActivity := now })

/-- Loop body of `cleanupStaleSessions`: walk the entries, delete the
stale ones, count the deletions. -/
def cleanupLoop (cutoff : Int) : Store → Nat × Store
  | [] => (0, [])
  | (k, s) :: rest =>
      let (n, st') := cleanupLoop cutoff rest
      if s.lastActivity < cutoff then (n + 1, st') else (n, (k, s) :: st')

/-- `SessionStore.cleanupStaleSessions`. -/
def cleanupStaleSessions (st : Store) (ttlMs : Int) (now : Int) : Nat × Store :=
  cleanupLoop (now - ttlMs) st

/-- `SessionStore.getSessionCount`. -/
def getSessionCount (st : Store) : Nat := st.length

/-- `SessionStore.getAllSessionIds`. -/
def getAllSessionIds (st : Store) : List String := st.map Prod.fst

/-- Predicate: a session is stale at `cutoff` (its `lastActivity` is
strictly below the cutoff `now - ttl`). -/
def isStale (cutoff : Int) (e : String × Session) : Bool :=
  e.2.lastActivity < cutoff

theorem cleanupLoop_eq_filter (cutoff : Int) (st : Store) :
    cleanupLoop cutoff st =
      ((st.filter (isStale cutoff)).length, st.filter (fun e => !isStale cutoff e)) := by
  induction st with
  | nil => rfl
  | cons e rest ih =>
      cases e with
      | mk k s =>
        simp only [cleanupLoop, ih, List.filter_cons, isStale]
        by_cases h : s.lastActivity < cutoff
        · simp [h]
        · simp [h]

/-- C3: `cleanupStaleSessions(ttl)` removes exactly the sessions whose
`lastActivity` is strictly older than `now - ttl` and returns their count;
a session survives iff it is not stale, so when no session qualifies the
store is unchanged, and on the empty store the call returns 0 and removes
nothing.  All surviving sessions are left unchanged (they occur in the
result exactly as they occurred in the input). -/
theorem c3_cleanupStaleSessions_exact (st : Store) (ttlMs now : Int) :
    (cleanupStaleSessions st ttlMs now).2 = st.filter (fun e => !isStale (now - ttlMs) e) ∧
    (cleanupStaleSessions st ttlMs now).1 = (st.filter (isStale (now - ttlMs))).length ∧
    (∀ e, e ∈ (cleanupStaleSessions st ttlMs now).2 ↔ e ∈ st ∧ ¬ e.2.lastActivity < now - ttlMs) ∧
    ((∀ e ∈ st, ¬ e.2.lastActivity < now - ttlMs) → (cleanupStaleSessions st ttlMs now).2 = st) ∧
    cleanupStaleSessions [] ttlMs now = (0, []) := by
  have hloop := cleanupLoop_eq_filter (now - ttlMs) st
  refine ⟨?_, ?_, ?_, ?_, ?_⟩
  · simp [cleanupStaleSessions, hloop]
  · simp [cleanupStaleSessions, hloop]
  · intro e
    simp [cleanupStaleSessions, hloop, List.mem_filter, isStale]
  · intro h
    simp only [cleanupStaleSessions, hloop]
    rw [List.filter_eq_self]
    intro e he
    simpa [isStale] using h e he
  · rfl

/-- Witness for C3 at a concrete store: a stale and a live session with
`ttl = 10`, `now = 100`; the stale one (activity 50 < 90) goes, the live
one (activity 95) stays, and the count is 1. -/
theorem c3_witness :
    ((cleanupStaleSessions
        [("a", freshSession "a" 50), ("b", freshSession "b" 95)] 10 100).2 =
      [("b", freshSession "b" 95)] ∧
     (cleanupStaleSessions
        [("a", freshSession "a" 50), ("b", freshSession "b" 95)] 10 100).1 = 1) := by
  have h := c3_cleanupStaleSessions_exact
    [("a", freshSession "a" 50), ("b", freshSession "b" 95)] 10 100
  refine ⟨?_, ?_⟩
  · rw [h.1]; rfl
  · rw [h.2.1]; rfl

/-! C2: per-session FIFO pruning in `addMessage`. -/

/-- The evolution of one session's message list under successive
successful `addMessage` calls: `shift` when at the limit, then `push`. -/
def addAllMsgs (maxM : Nat) : List Json → List Json → List Json
  | cur, [] => cur
  | cur, m :: rest =>
      addAllMsgs maxM (if cur.length ≥ maxM then cur.tail ++ [m] else cur ++ [m]) rest

theorem addAllMsgs_eq_drop (maxM : Nat) (hmax : 1 ≤ maxM) :
    ∀ (ms cur : List Json), cur.length ≤ maxM →
      addAllMsgs maxM cur ms = (cur ++ ms).drop (cur.length + ms.length - maxM) := by
  intro ms
  induction ms with
  | nil =>
      intro cur hcur
      simp [addAllMsgs, Nat.sub_eq_zero_of_le hcur]
  | cons m rest ih =>
      intro cur hcur
      by_cases h : cur.length ≥ maxM
      · have hlen : cur.length = maxM := Nat.le_antisymm hcur h
        cases cur with
        | nil => simp at hlen; omega
        | cons c t =>
            have htail : (t ++ [m]).length ≤ maxM := by
              simp at hlen ⊢; omega
            have := ih (t ++ [m]) htail
            simp only [addAllMsgs, List.tail_cons, if_pos h, this]
            have harith : (t ++ [m]).length + rest.length - maxM = rest.length := by
              simp at hlen ⊢; omega
            have harith2 : (c :: t).length + (m :: rest).length - maxM = rest.length + 1 := by
              simp at hlen ⊢; omega
            rw [harith, harith2]
            simp [List.drop_succ_cons]
      · have hlt : cur.length < maxM := Nat.lt_of_not_le h
        have hnext : (cur ++ [m]).length ≤ maxM := by simp; omega
        have := ih (cur ++ [m]) hnext
        simp only [addAllMsgs, if_neg h, this]
        have harith : (cur ++ [m]).length + rest.length - maxM
            = cur.length + (m :: rest).length - maxM := by simp; omega
        rw [harith, List.append_assoc]
        simp

theorem alGet_alSet_self {β : Type} (st : List (String × β)) (k : String) (v : β) :
    alGet (alSet st k v) k = some v := by
  induction st with
  | nil => simp [alSet, alGet]
  | cons e rest ih =>
      by_cases h : e.1 = k
      · simp [alSet, h, alGet]
      · cases e with
        | mk k' v' => simp only at h; simp [alSet, h, alGet, ih]

/-- Run a sequence of `addMessage` calls for one session, each with its
own `Date.now()` value, stopping at the first thrown error. -/
def runAdds (cfg : SessionStoreConfig) : Store → String → List (Json × Int) →
    Except StoreError Store
  | st, _, [] => .ok st
  | st, sid, (m, now) :: rest =>
      match addMessage cfg st sid m now with
      | .error e => .error e
      | .ok st' => runAdds cfg st' sid rest

theorem runAdds_ok (cfg : SessionStoreConfig) (sid : String) :
    ∀ (ms : List (Json × Int)) (st : Store) (sess : Session),
      alGet st sid = some sess →
      (∀ p ∈ ms, validateMessage p.1 = none) →
      ∃ st' la, runAdds cfg st sid ms = .ok st' ∧
        alGet st' sid = some
          { id := sess.id
            messages := addAllMsgs cfg.maxMessagesPerSession sess.messages (ms.map Prod.fst)
            createdAt := sess.createdAt
            lastActivity := la
            metadata := sess.metadata } := by
  intro ms
  induction ms with
  | nil =>
      intro st sess hget _
      refine ⟨st, sess.lastActivity, rfl, ?_⟩
      cases sess
      simpa [addAllMsgs] using hget
  | cons p rest ih =>
      intro st sess hget hvalid
      cases p with
      | mk m now =>
        have hm : validateMessage m = none := hvalid (m, now) (List.mem_cons_self _ _)
        have hrest : ∀ q ∈ rest, validateMessage q.1 = none := by
          intro q hq; exact hvalid q (List.mem_cons_of_mem _ hq)
        have hstep : addMessage cfg st sid m now = .ok (alSet st sid
            { sess with
              messages :=
                (if sess.messages.length ≥ cfg.maxMessagesPerSession then
                  sess.messages.tail else sess.messages) ++ [m]
              lastActivity := now }) := by
          simp [addMessage, hget, hm]
        obtain ⟨st', la, hrun, hget'⟩ := ih (alSet st sid
            { sess with
              messages :=
                (if sess.messages.length ≥ cfg.maxMessagesPerSession then
                  sess.messages.tail else sess.messages) ++ [m]
              lastActivity := now })
            { sess with
              messages :=
                (if sess.messages.length ≥ cfg.maxMessagesPerSession then
                  sess.messages.tail else sess.messages) ++ [m]
              lastActivity := now }
            (alGet_alSet_self _ _ _) hrest
        refine ⟨st', la, ?_, ?_⟩
        · simp [runAdds, hstep, hrun]
        · have : addAllMsgs cfg.maxMessagesPerSession sess.messages (((m, now) :: rest).map Prod.fst)
              = addAllMsgs cfg.maxMessagesPerSession
                  ((if sess.messages.length ≥ cfg.maxMessagesPerSession then
                    sess.messages.tail else sess.messages) ++ [m]) (rest.map Prod.fst) := by
            simp only [List.map_cons, addAllMsgs]
            by_cases h : sess.messages.length ≥ cfg.maxMessagesPerSession
            · simp [h]
            · simp [h]
          rw [this]
          exact hget'

/-- C2: for a session present in the store whose message list respects the
bound, a run of successful `addMessage` calls longer than
`maxMessagesPerSession` (with `maxMessagesPerSession ≥ 1`, as the config
loader guarantees) leaves the session holding exactly the most recent
`maxMessagesPerSession` messages, in order — the suffix of the full added
sequence; and each pruning step at capacity removes only the message at
index 0 before appending. -/
theorem c2_addMessage_suffix (cfg : SessionStoreConfig) (st : Store) (sid : String)
    (sess : Session) (ms : List (Json × Int))
    (hmax : 1 ≤ cfg.maxMessagesPerSession)
    (hget : alGet st sid = some sess)
    (hlen : sess.messages.length ≤ cfg.maxMessagesPerSession)
    (hvalid : ∀ p ∈ ms, validateMessage p.1 = none)
    (hn : ms.length > cfg.maxMessagesPerSession) :
    (∃ st' sess', runAdds cfg st sid ms = .ok st' ∧ alGet st' sid = some sess' ∧
       sess'.messages = (ms.map Prod.fst).drop (ms.length - cfg.maxMessagesPerSession) ∧
       sess'.messages.length = cfg.maxMessagesPerSession) ∧
    (∀ (st₂ : Store) (sess₂ : Session) (m : Json) (now : Int),
       alGet st₂ sid = some sess₂ →
       sess₂.messages.length = cfg.maxMessagesPerSession →
       validateMessage m = none →
       addMessage cfg st₂ sid m now = .ok (alSet st₂ sid
         { sess₂ with messages := sess₂.messages.tail ++ [m], lastActivity := now })) := by
  constructor
  · obtain ⟨st', la, hrun, hget'⟩ := runAdds_ok cfg sid ms st sess hget hvalid
    have heq := addAllMsgs_eq_drop cfg.maxMessagesPerSession hmax (ms.map Prod.fst)
      sess.messages hlen
    have hdropped : addAllMsgs cfg.maxMessagesPerSession sess.messages (ms.map Prod.fst)
        = (ms.map Prod.fst).drop (ms.length - cfg.maxMessagesPerSession) := by
      rw [heq]
      have hlenms : (ms.map Prod.fst).length = ms.length := List.length_map _ _
      have harith : sess.messages.length + (ms.map Prod.fst).length - cfg.maxMessagesPerSession
          = sess.messages.length + (ms.length - cfg.maxMessagesPerSession) := by
        rw [hlenms]; omega
      rw [harith, List.drop_append]
    refine ⟨st', _, hrun, hget', ?_, ?_⟩
    · exact hdropped
    · simp only [hdropped, List.length_drop, List.length_map]
      omega
  · intro st₂ sess₂ m now hget₂ hlen₂ hm
    have hcap : sess₂.messages.length ≥ cfg.maxMessagesPerSession := Nat.le_of_eq hlen₂.symm
    simp [addMessage, hget₂, hm, hcap]

/-- Witness for C2: capacity 2, three valid messages added to a fresh
session; the store ends with the last two messages. -/
theorem c2_witness :
    (1 ≤ 2 ∧
     alGet [("s", freshSession "s" 1)] "s" = some (freshSession "s" 1) ∧
     (freshSession "s" 1).messages.length ≤ 2 ∧
     (3 : Nat) > 2) ∧
    (∃ st' sess',
       runAdds { DEFAULT_CONFIG with maxMessagesPerSession := 2 }
         [("s", freshSession "s" 1)] "s"
         [(.obj [("id", .str "m1"), ("role", .str "user"), ("content", .str "a"), ("timestamp", .num 1)], 1),
          (.obj [("id", .str "m2"), ("role", .str "assistant"), ("content", .str "b"), ("timestamp", .num 2)], 2),
          (.obj [("id", .str "m3"), ("role", .str "user"), ("content", .str "c"), ("timestamp", .num 3)], 3)] = .ok st' ∧
       alGet st' "s" = some sess' ∧
       sess'.messages =
         ([(.obj [("id", .str "m1"), ("role", .str "user"), ("content", .str "a"), ("timestamp", .num 1)], (1 : Int)),
           (.obj [("id", .str "m2"), ("role", .str "assistant"), ("content", .str "b"), ("timestamp", .num 2)], 2),
           (.obj [("id", .str "m3"), ("role", .str "user"), ("content", .str "c"), ("timestamp", .num 3)], 3)].map Prod.fst).drop 1 ∧
       sess'.messages.length = 2) := by
  constructor
  · refine ⟨by decide, rfl, by decide, by decide⟩
  · exact (c2_addMessage_suffix { DEFAULT_CONFIG with maxMessagesPerSession := 2 }
      [("s", freshSession "s" 1)] "s" (freshSession "s" 1) _
      (by decide) rfl (by decide)
      (by intro p hp; fin_cases hp <;> rfl) (by decide)).1

/-! C1: bounded store with LRU-by-activity eviction. -/

/-- Well-formedness of the store map: distinct keys (a `Map` holds each
key once) and no empty-string session id (`createSession` never stores
one, as a falsy provided id falls back to `randomUUID()`). -/
def StoreWF (st : Store) : Prop :=
  (st.map Prod.fst).Nodup ∧ ∀ e ∈ st, e.1 ≠ ""

theorem mem_alSet {β : Type} (st : List (String × β)) (k : String) (v : β) :
    ∀ e ∈ alSet st k v, e = (k, v) ∨ e ∈ st := by
  induction st with
  | nil => simp [alSet]
  | cons hd rest ih =>
      obtain ⟨k', v'⟩ := hd
      intro e he
      by_cases h : k' = k
      · simp only [alSet, if_pos h, List.mem_cons] at he
        rcases he with he | he
        · exact Or.inl he
        · exact Or.inr (List.mem_cons_of_mem _ he)
      · simp only [alSet, if_neg h, List.mem_cons] at he
        rcases he with he | he
        · exact Or.inr (by simp [he])
        · rcases ih e he with h' | h'
          · exact Or.inl h'
          · exact Or.inr (List.mem_cons_of_mem _ h')

theorem alSet_keys {β : Type} (st : List (String × β)) (k : String) (v : β) :
    (alSet st k v).map Prod.fst =
      if k ∈ st.map Prod.fst then st.map Prod.fst else st.map Prod.fst ++ [k] := by
  induction st with
  | nil => simp [alSet]
  | cons hd rest ih =>
      cases hd with
      | mk k' v' =>
        by_cases h : k' = k
        · simp [alSet, h]
        · have hne : ¬ k = k' := fun hk => h hk.symm
          simp only [alSet, if_neg h, List.map_cons, ih]
          by_cases hmem : k ∈ rest.map Prod.fst
          · simp [hmem, hne]
          · simp [hmem, hne]

theorem alSet_keys_nodup {β : Type} (st : List (String × β)) (k : String) (v : β)
    (h : (st.map Prod.fst).Nodup) : ((alSet st k v).map Prod.fst).Nodup := by
  rw [alSet_keys]
  by_cases hmem : k ∈ st.map Prod.fst
  · simpa [hmem] using h
  · simp only [hmem, if_neg, ite_false]
    rw [List.nodup_append]
    refine ⟨h, List.nodup_singleton k, ?_⟩
    intro a ha hak
    rw [List.mem_singleton] at hak
    subst hak
    exact hmem ha

theorem alSet_length_le {β : Type} (st : List (String × β)) (k : String) (v : β) :
    (alSet st k v).length ≤ st.length + 1 := by
  induction st with
  | nil => simp [alSet]
  | cons hd rest ih =>
      cases hd with
      | mk k' v' =>
        by_cases h : k' = k
        · simp [alSet, h]
        · simp only [alSet, if_neg h, List.length_cons]
          omega

theorem mem_alDelete {β : Type} (st : List (String × β)) (k : String) :
    ∀ e ∈ alDelete st k, e ∈ st := by
  induction st with
  | nil => simp [alDelete]
  | cons hd rest ih =>
      obtain ⟨k', v'⟩ := hd
      intro e he
      by_cases h : k' = k
      · simp only [alDelete, if_pos h] at he
        exact List.mem_cons_of_mem _ he
      · simp only [alDelete, if_neg h, List.mem_cons] at he
        rcases he with he | he
        · simp [he]
        · exact List.mem_cons_of_mem _ (ih e he)

theorem alDelete_keys_nodup {β : Type} (st : List (String × β)) (k : String)
    (h : (st.map Prod.fst).Nodup) : ((alDelete st k).map Prod.fst).Nodup := by
  induction st with
  | nil => simp [alDelete]
  | cons hd rest ih =>
      cases hd with
      | mk k' v' =>
        simp only [List.map_cons, List.nodup_cons] at h
        by_cases heq : k' = k
        · simpa [alDelete, heq] using h.2
        · simp only [alDelete, if_neg heq, List.map_cons, List.nodup_cons]
          refine ⟨fun hmem => ?_, ih h.2⟩
          rw [List.mem_map] at hmem
          obtain ⟨e, he, hke⟩ := hmem
          exact h.1 (List.mem_map.mpr ⟨e, mem_alDelete rest k e he, hke⟩)

theorem alDelete_length_lt {β : Type} (st : List (String × β)) (k : String)
    (h : k ∈ st.map Prod.fst) : (alDelete st k).length < st.length := by
  induction st with
  | nil => simp at h
  | cons hd rest ih =>
      cases hd with
      | mk k' v' =>
        by_cases heq : k' = k
        · simp [alDelete, heq]
        · have hmem : k ∈ rest.map Prod.fst := by
            simp only [List.map_cons, List.mem_cons] at h
            rcases h with h | h
            · exact absurd h.symm heq
            · exact h
          simp only [alDelete, if_neg heq, List.length_cons]
          exact Nat.succ_lt_succ (ih hmem)

theorem evictScan_acc_some (st : Store) :
    ∀ p, ∃ q, evictScan st (some p) = some q := by
  induction st with
  | nil => intro p; exact ⟨p, rfl⟩
  | cons hd rest ih =>
      intro p
      cases hd with
      | mk k s =>
        cases p with
        | mk k0 a0 =>
          by_cases h : s.lastActivity < a0
          · simpa [evictScan, h] using ih (k, s.lastActivity)
          · simpa [evictScan, h] using ih (k0, a0)

theorem evictScan_some_spec (st : Store) :
    ∀ (acc : Option (String × Int)) (k : String) (a : Int),
      evictScan st acc = some (k, a) →
      ((∃ s, (k, s) ∈ st ∧ s.lastActivity = a) ∨ acc = some (k, a)) ∧
      (∀ e ∈ st, a ≤ e.2.lastActivity) ∧
      (∀ k0 a0, acc = some (k0, a0) → a ≤ a0) := by
  induction st with
  | nil =>
      intro acc k a h
      simp only [evictScan] at h
      subst h
      exact ⟨Or.inr rfl, by simp, fun k0 a0 h0 => by simp_all⟩
  | cons hd rest ih =>
      obtain ⟨kh, sh⟩ := hd
      intro acc k a h
      cases acc with
      | none =>
          simp only [evictScan] at h
          obtain ⟨hor, hall, hacc⟩ := ih (some (kh, sh.lastActivity)) k a h
          have hbound : a ≤ sh.lastActivity := hacc kh sh.lastActivity rfl
          refine ⟨?_, ?_, fun k0 a0 h0 => by simp_all⟩
          · rcases hor with ⟨s, hs, hla⟩ | heq
            · exact Or.inl ⟨s, List.mem_cons_of_mem _ hs, hla⟩
            · have h' := Option.some.inj heq
              rw [Prod.mk.injEq] at h'
              obtain ⟨hk, ha⟩ := h'
              subst hk
              exact Or.inl ⟨sh, List.mem_cons_self _ _, ha⟩
          · intro e he
            rcases List.mem_cons.mp he with he | he
            · rw [he]; exact hbound
            · exact hall e he
      | some p =>
          obtain ⟨k0, a0⟩ := p
          by_cases hlt : sh.lastActivity < a0
          · simp only [evictScan, if_pos hlt] at h
            obtain ⟨hor, hall, hacc⟩ := ih (some (kh, sh.lastActivity)) k a h
            have hbound : a ≤ sh.lastActivity := hacc kh sh.lastActivity rfl
            refine ⟨?_, ?_, ?_⟩
            · rcases hor with ⟨s, hs, hla⟩ | heq
              · exact Or.inl ⟨s, List.mem_cons_of_mem _ hs, hla⟩
              · have h' := Option.some.inj heq
                rw [Prod.mk.injEq] at h'
                obtain ⟨hk, ha⟩ := h'
                subst hk
                exact Or.inl ⟨sh, List.mem_cons_self _ _, ha⟩
            · intro e he
              rcases List.mem_cons.mp he with he | he
              · rw [he]; exact hbound
              · exact hall e he
            · intro k1 a1 h1
              have h' := Option.some.inj h1
              rw [Prod.mk.injEq] at h'
              obtain ⟨hk, ha⟩ := h'
              subst ha
              exact le_trans hbound (le_of_lt hlt)
          · simp only [evictScan, if_neg hlt] at h
            obtain ⟨hor, hall, hacc⟩ := ih (some (k0, a0)) k a h
            have hbound : a ≤ a0 := hacc k0 a0 rfl
            have hle : a0 ≤ sh.lastActivity := le_of_not_lt hlt
            refine ⟨?_, ?_, ?_⟩
            · rcases hor with ⟨s, hs, hla⟩ | heq
              · exact Or.inl ⟨s, List.mem_cons_of_mem _ hs, hla⟩
              · exact Or.inr heq
            · intro e he
              rcases List.mem_cons.mp he with he | he
              · rw [he]; exact le_trans hbound hle
              · exact hall e he
            · intro k1 a1 h1
              have h' := Option.some.inj h1
              rw [Prod.mk.injEq] at h'
              obtain ⟨hk, ha⟩ := h'
              subst ha
              exact hbound

/-- On a non-empty store the eviction scan selects a session that is
present and has the smallest `lastActivity`. -/
theorem evictOldestChoice_min (st : Store) (hne : st ≠ []) :
    ∃ k s, evictOldestChoice st = some k ∧ (k, s) ∈ st ∧
      ∀ e ∈ st, s.lastActivity ≤ e.2.lastActivity := by
  cases st with
  | nil => exact absurd rfl hne
  | cons hd rest =>
      cases hd with
      | mk kh sh =>
        obtain ⟨⟨k, a⟩, hscan⟩ := evictScan_acc_some rest (kh, sh.lastActivity)
        have hscan' : evictScan ((kh, sh) :: rest) none = some (k, a) := by
          simpa [evictScan] using hscan
        obtain ⟨hor, _, _⟩ := evictScan_some_spec ((kh, sh) :: rest) none k a hscan'
        rcases hor with ⟨s, hs, hla⟩ | heq
        · refine ⟨k, s, ?_, hs, ?_⟩
          · simp [evictOldestChoice, hscan']
          · intro e he
            obtain ⟨_, hall, _⟩ := evictScan_some_spec ((kh, sh) :: rest) none k a hscan'
            rw [hla]
            exact hall e he
        · simp at heq

theorem evictOldestChoice_none_iff (st : Store) :
    evictOldestChoice st = none ↔ st = [] := by
  constructor
  · intro h
    cases st with
    | nil => rfl
    | cons hd rest =>
        exfalso
        obtain ⟨k, s, hk, _, _⟩ := evictOldestChoice_min (hd :: rest) (by simp)
        rw [hk] at h
        exact Option.noConfusion h
  · intro h; subst h; rfl

theorem csId_ne_empty (providedId : Option String) (freshId : String)
    (hfresh : freshId ≠ "") : csId providedId freshId ≠ "" := by
  cases providedId with
  | none => exact hfresh
  | some s =>
      by_cases h : s = ""
      · simp only [csId, if_pos h]
        exact hfresh
      · simp only [csId, if_neg h]
        exact h

theorem createSession_step (cfg : SessionStoreConfig) (st : Store)
    (providedId : Option String) (freshId : String) (now : Int)
    (hWF : StoreWF st) (hfresh : freshId ≠ "")
    (hlen : st.length ≤ cfg.maxSessions) (hmax : 0 < cfg.maxSessions) :
    ∃ st', createSession cfg st providedId freshId now =
        .ok (st', freshSession (csId providedId freshId) now) ∧
      StoreWF st' ∧ st'.length ≤ cfg.maxSessions := by
  have hid : csId providedId freshId ≠ "" := csId_ne_empty providedId freshId hfresh
  by_cases hcap : st.length ≥ cfg.maxSessions
  · have hne : st ≠ [] := by
      intro h
      rw [h] at hcap
      simp at hcap
      omega
    obtain ⟨k, s, hchoice, hmem, _⟩ := evictOldestChoice_min st hne
    have hk : k ≠ "" := hWF.2 (k, s) hmem
    have hevict : evictOldestSession cfg st = .ok (alDelete st k) := by
      simp [evictOldestSession, hchoice, hk]
    refine ⟨alSet (alDelete st k) (csId providedId freshId)
        (freshSession (csId providedId freshId) now), ?_, ?_, ?_⟩
    · simp [createSession, if_pos hcap, hevict]
    · constructor
      · exact alSet_keys_nodup _ _ _ (alDelete_keys_nodup st k hWF.1)
      · intro e he
        rcases mem_alSet _ _ _ e he with h | h
        · rw [h]; exact hid
        · exact hWF.2 e (mem_alDelete st k e h)
    · have hkmem : k ∈ st.map Prod.fst := List.mem_map.mpr ⟨(k, s), hmem, rfl⟩
      have hdel : (alDelete st k).length < st.length := alDelete_length_lt st k hkmem
      have := alSet_length_le (alDelete st k) (csId providedId freshId)
        (freshSession (csId providedId freshId) now)
      omega
  · refine ⟨alSet st (csId providedId freshId)
        (freshSession (csId providedId freshId) now), ?_, ?_, ?_⟩
    · simp [createSession, if_neg hcap]
    · constructor
      · exact alSet_keys_nodup _ _ _ hWF.1
      · intro e he
        rcases mem_alSet _ _ _ e he with h | h
        · rw [h]; exact hid
        · exact hWF.2 e h
    · have := alSet_length_le st (csId providedId freshId)
        (freshSession (csId providedId freshId) now)
      omega

/-- One input to a `createSession` call: optional id argument, the
`randomUUID()` that would be drawn, and `Date.now()`. -/
structure CSInput where
  providedId : Option String
  freshId : String
  now : Int

/-- Run a sequence of `createSession` calls, recording every post-call
store state; stop at the first thrown error. -/
def runCreate (cfg : SessionStoreConfig) : Store → List CSInput →
    Except StoreError (List Store)
  | _, [] => .ok []
  | st, i :: rest =>
      match createSession cfg st i.providedId i.freshId i.now with
      | .error e => .error e
      | .ok (st', _) =>
          match runCreate cfg st' rest with
          | .error e => .error e
          | .ok sts => .ok (st' :: sts)

theorem runCreate_bounded (cfg : SessionStoreConfig) (hmax : 0 < cfg.maxSessions) :
    ∀ (trace : List CSInput) (st : Store), StoreWF st →
      st.length ≤ cfg.maxSessions → (∀ i ∈ trace, i.freshId ≠ "") →
      ∃ sts, runCreate cfg st trace = .ok sts ∧
        ∀ s ∈ sts, s.length ≤ cfg.maxSessions := by
  intro trace
  induction trace with
  | nil => intro st _ _ _; exact ⟨[], rfl, by simp⟩
  | cons i rest ih =>
      intro st hWF hlen hfresh
      obtain ⟨st', hstep, hWF', hlen'⟩ := createSession_step cfg st i.providedId
        i.freshId i.now hWF (hfresh i (List.mem_cons_self _ _)) hlen hmax
      obtain ⟨sts, hrun, hall⟩ := ih st' hWF' hlen'
        (fun j hj => hfresh j (List.mem_cons_of_mem _ hj))
      refine ⟨st' :: sts, ?_, ?_⟩
      · simp [runCreate, hstep, hrun]
      · intro s hs
        rcases List.mem_cons.mp hs with hs | hs
        · rw [hs]; exact hlen'
        · exact hall s hs

/-- C1: with `maxSessions > 0`, (a) along every sequence of
`createSession` calls from the empty store the store never exceeds
`maxSessions` sessions and no call fails; (b) whenever a call arrives with
the store at capacity, the session deleted before the insertion is one
with the smallest `lastActivity` among those present; (c) `createSession`
throws `SessionLimitExceeded` only when eviction cannot free capacity —
the store was empty while at capacity, or the scan chose the untruthy
empty-string id, neither of which arises in a well-formed store. -/
theorem c1_createSession_bounded_lru (cfg : SessionStoreConfig)
    (hmax : 0 < cfg.maxSessions) :
    (∀ trace : List CSInput, (∀ i ∈ trace, i.freshId ≠ "") →
       ∃ sts, runCreate cfg [] trace = .ok sts ∧
         ∀ s ∈ sts, s.length ≤ cfg.maxSessions) ∧
    (∀ (st : Store) (providedId : Option String) (freshId : String) (now : Int),
       StoreWF st → st ≠ [] → st.length ≥ cfg.maxSessions → freshId ≠ "" →
       ∃ k s, (k, s) ∈ st ∧ (∀ e ∈ st, s.lastActivity ≤ e.2.lastActivity) ∧
         createSession cfg st providedId freshId now =
           .ok (alSet (alDelete st k) (csId providedId freshId)
                  (freshSession (csId providedId freshId) now),
                freshSession (csId providedId freshId) now)) ∧
    (∀ (st : Store) (providedId : Option String) (freshId : String) (now : Int)
       (e : StoreError),
       createSession cfg st providedId freshId now = .error e →
       e = .sessionLimitExceeded cfg.maxSessions ∧ st.length ≥ cfg.maxSessions ∧
         (st = [] ∨ evictOldestChoice st = some "")) := by
  refine ⟨?_, ?_, ?_⟩
  · intro trace hfresh
    exact runCreate_bounded cfg hmax trace [] ⟨List.nodup_nil, by simp⟩
      (by simp) hfresh
  · intro st providedId freshId now hWF hne hcap hfresh
    obtain ⟨k, s, hchoice, hmem, hmin⟩ := evictOldestChoice_min st hne
    have hk : k ≠ "" := hWF.2 (k, s) hmem
    have hevict : evictOldestSession cfg st = .ok (alDelete st k) := by
      simp [evictOldestSession, hchoice, hk]
    refine ⟨k, s, hmem, hmin, ?_⟩
    simp [createSession, if_pos hcap, hevict]
  · intro st providedId freshId now e herr
    by_cases hcap : st.length ≥ cfg.maxSessions
    · cases hchoice : evictOldestChoice st with
      | none =>
          have hempty : st = [] := (evictOldestChoice_none_iff st).mp hchoice
          have hevict : evictOldestSession cfg st =
              .error (.sessionLimitExceeded cfg.maxSessions) := by
            simp [evictOldestSession, hchoice]
          simp only [createSession, if_pos hcap, hevict] at herr
          exact ⟨(Except.error.inj herr).symm, hcap, Or.inl hempty⟩
      | some k =>
          by_cases hk : k = ""
          · have hevict : evictOldestSession cfg st =
                .error (.sessionLimitExceeded cfg.maxSessions) := by
              simp [evictOldestSession, hchoice, hk]
            simp only [createSession, if_pos hcap, hevict] at herr
            exact ⟨(Except.error.inj herr).symm, hcap, Or.inr (congrArg some hk)⟩
          · have hevict : evictOldestSession cfg st = .ok (alDelete st k) := by
              simp [evictOldestSession, hchoice, hk]
            simp [createSession, if_pos hcap, hevict] at herr
    · simp [createSession, if_neg hcap] at herr

/-- Witness for C1: capacity 2, three creations with fresh ids `a`, `b`,
`c`; every intermediate store holds at most 2 sessions. -/
theorem c1_witness :
    0 < 2 ∧
    (∃ sts, runCreate { DEFAULT_CONFIG with maxSessions := 2 } []
        [⟨none, "a", 1⟩, ⟨none, "b", 2⟩, ⟨none, "c", 3⟩] = .ok sts ∧
      ∀ s ∈ sts, s.length ≤ 2) :=
  ⟨by decide,
   (c1_createSession_bounded_lru { DEFAULT_CONFIG with maxSessions := 2 }
      (by decide)).1 [⟨none, "a", 1⟩, ⟨none, "b", 2⟩, ⟨none, "c", 3⟩]
      (by intro i hi; fin_cases hi <;> decide)⟩

/-! C10: `createSession` on an id that is already present. -/

theorem alGet_mem {β : Type} (st : List (String × β)) (k : String) (v : β)
    (h : alGet st k = some v) : (k, v) ∈ st := by
  induction st with
  | nil => simp [alGet] at h
  | cons hd rest ih =>
      obtain ⟨k', v'⟩ := hd
      by_cases heq : k' = k
      · simp only [alGet, if_pos heq] at h
        subst heq
        simp [Option.some.inj h]
      · simp only [alGet, if_neg heq] at h
        exact List.mem_cons_of_mem _ (ih h)

/-- C10: calling `createSession(id)` with `id` already in the store never
fails and replaces the stored session by a fresh one — empty messages,
empty metadata, `createdAt = lastActivity = now` — silently discarding the
prior history; and when the store is at capacity the minimal-activity
session is still evicted first, even though the insertion would not grow
the map. -/
theorem c10_createSession_replaces (cfg : SessionStoreConfig) (st : Store)
    (id freshId : String) (now : Int)
    (hWF : StoreWF st) (hpresent : ∃ s0, alGet st id = some s0) (hid : id ≠ "") :
    ∃ st', createSession cfg st (some id) freshId now =
        .ok (st', freshSession id now) ∧
      alGet st' id = some (freshSession id now) ∧
      (freshSession id now).messages = [] ∧
      (freshSession id now).metadata = [] ∧
      (freshSession id now).createdAt = now ∧
      (freshSession id now).lastActivity = now ∧
      (st.length ≥ cfg.maxSessions →
        ∃ k s, (k, s) ∈ st ∧ (∀ e ∈ st, s.lastActivity ≤ e.2.lastActivity) ∧
          st' = alSet (alDelete st k) id (freshSession id now)) := by
  obtain ⟨s0, hs0⟩ := hpresent
  have hne : st ≠ [] := by
    intro h
    rw [h] at hs0
    simp [alGet] at hs0
  have hcs : csId (some id) freshId = id := by simp [csId, hid]
  by_cases hcap : st.length ≥ cfg.maxSessions
  · obtain ⟨k, s, hchoice, hmem, hmin⟩ := evictOldestChoice_min st hne
    have hk : k ≠ "" := hWF.2 (k, s) hmem
    have hevict : evictOldestSession cfg st = .ok (alDelete st k) := by
      simp [evictOldestSession, hchoice, hk]
    refine ⟨alSet (alDelete st k) id (freshSession id now), ?_, ?_, rfl, rfl, rfl, rfl, ?_⟩
    · simp [createSession, if_pos hcap, hevict, hcs]
    · exact alGet_alSet_self _ _ _
    · intro _
      exact ⟨k, s, hmem, hmin, rfl⟩
  · refine ⟨alSet st id (freshSession id now), ?_, ?_, rfl, rfl, rfl, rfl, ?_⟩
    · simp [createSession, if_neg hcap, hcs]
    · exact alGet_alSet_self _ _ _
    · intro h
      exact absurd h hcap

/-- A concrete session with one prior message, used to witness C10. -/
def histSession : Session :=
  { id := "s", messages := [Json.null], createdAt := 0, lastActivity := 0, metadata := [] }

/-- Witness for C10: a store holding one session with history under id
`s`; re-creating `s` yields the fresh empty session. -/
theorem c10_witness :
    (StoreWF [("s", histSession)] ∧ ("s" : String) ≠ "") ∧
    (∃ st', createSession DEFAULT_CONFIG [("s", histSession)] (some "s") "f" 7 =
        .ok (st', freshSession "s" 7) ∧
      alGet st' "s" = some (freshSession "s" 7) ∧
      (freshSession "s" 7).messages = [] ∧
      (freshSession "s" 7).metadata = [] ∧
      (freshSession "s" 7).createdAt = 7 ∧
      (freshSession "s" 7).lastActivity = 7 ∧
      ([("s", histSession)].length ≥ DEFAULT_CONFIG.maxSessions →
        ∃ k s, (k, s) ∈ [("s", histSession)] ∧
          (∀ e ∈ [("s", histSession)], s.lastActivity ≤ e.2.lastActivity) ∧
          st' = alSet (alDelete [("s", histSession)] k) "s" (freshSession "s" 7))) := by
  have hWF : StoreWF [("s", histSession)] := by
    refine ⟨by simp, ?_⟩
    intro e he
    rw [List.mem_singleton] at he
    rw [he]
    decide
  exact ⟨⟨hWF, by decide⟩,
    c10_createSession_replaces DEFAULT_CONFIG _ "s" "f" 7 hWF ⟨_, rfl⟩ (by decide)⟩

/-! C8: which message invariant the store actually maintains. -/

theorem isStr_spec (o : Option Json) (h : isStr o = true) : ∃ s, o = some (.str s) := by
  cases o with
  | none => simp [isStr] at h
  | some j => cases j <;> simp [isStr] at h ⊢

theorem truthy_str_ne (s : String) (h : truthy (some (.str s)) = true) : s ≠ "" := by
  simpa [truthy] using h

theorem roleIncluded_spec (o : Option Json) (h : roleIncluded o = true) :
    o = some (.str "user") ∨ o = some (.str "assistant") := by
  cases o with
  | none => simp [roleIncluded] at h
  | some j =>
      cases j with
      | str s =>
          simp only [roleIncluded, Bool.or_eq_true, beq_iff_eq] at h
          rcases h with h | h
          · exact Or.inl (by rw [h])
          · exact Or.inr (by rw [h])
      | null => simp [roleIncluded] at h
      | bool b => simp [roleIncluded] at h
      | num n => simp [roleIncluded] at h
      | arr xs => simp [roleIncluded] at h
      | obj fs => simp [roleIncluded] at h

/-- What passing `validateMessage` guarantees about a message object:
a non-empty string id, role exactly `user` or `assistant`, string content
(possibly empty), and a strictly positive numeric timestamp. -/
theorem validateMessage_none_spec (m : Json) (h : validateMessage m = none) :
    (∃ s, jsField m "id" = some (.str s) ∧ s ≠ "") ∧
    (jsField m "role" = some (.str "user") ∨ jsField m "role" = some (.str "assistant")) ∧
    (∃ s, jsField m "content" = some (.str s)) ∧
    (∃ t, jsField m "timestamp" = some (.num t) ∧ 0 < t) := by
  by_cases h1 : truthy (jsField m "id") && isStr (jsField m "id")
  · by_cases h2 : truthy (jsField m "role") && roleIncluded (jsField m "role")
    · by_cases h3 : isStr (jsField m "content")
      · refine ⟨?_, ?_, isStr_spec _ h3, ?_⟩
        · rw [Bool.and_eq_true] at h1
          obtain ⟨hid1, hid2⟩ := h1
          obtain ⟨s, hs⟩ := isStr_spec _ hid2
          exact ⟨s, hs, truthy_str_ne s (hs ▸ hid1)⟩
        · rw [Bool.and_eq_true] at h2
          exact roleIncluded_spec _ h2.2
        · cases hts : jsField m "timestamp" with
          | none => simp [validateMessage, h1, h2, h3, hts] at h
          | some j =>
              cases j with
              | num t =>
                  by_cases ht : t ≤ 0
                  · simp [validateMessage, h1, h2, h3, hts, ht] at h
                  · exact ⟨t, rfl, lt_of_not_le ht⟩
              | null => simp [validateMessage, h1, h2, h3, hts] at h
              | bool b => simp [validateMessage, h1, h2, h3, hts] at h
              | str s => simp [validateMessage, h1, h2, h3, hts] at h
              | arr xs => simp [validateMessage, h1, h2, h3, hts] at h
              | obj fs => simp [validateMessage, h1, h2, h3, hts] at h
      · simp [validateMessage, h1, h2, h3] at h
    · simp [validateMessage, h1, h2] at h
  · simp [validateMessage, h1] at h

/-- Shape of a successful `createSession`: the result map is the (possibly
evicted) input map with the fresh session inserted. -/
theorem createSession_ok_mem (cfg : SessionStoreConfig) (st : Store)
    (providedId : Option String) (freshId : String) (now : Int)
    (st' : Store) (sess : Session)
    (h : createSession cfg st providedId freshId now = .ok (st', sess)) :
    ∀ e ∈ st', e.2.messages = [] ∨ e ∈ st := by
  by_cases hcap : st.length ≥ cfg.maxSessions
  · cases hchoice : evictOldestChoice st with
    | none => simp [createSession, if_pos hcap, evictOldestSession, hchoice] at h
    | some k =>
        by_cases hk : k = ""
        · simp [createSession, if_pos hcap, evictOldestSession, hchoice, hk] at h
        · have hst' : st' = alSet (alDelete st k) (csId providedId freshId)
              (freshSession (csId providedId freshId) now) := by
            simp [createSession, if_pos hcap, evictOldestSession, hchoice, hk] at h
            exact h.1.symm
          intro e he
          rw [hst'] at he
          rcases mem_alSet _ _ _ e he with h' | h'
          · rw [h']; exact Or.inl rfl
          · exact Or.inr (mem_alDelete _ _ _ h')
  · have hst' : st' = alSet st (csId providedId freshId)
        (freshSession (csId providedId freshId) now) := by
      simp [createSession, if_neg hcap] at h
      exact h.1.symm
    intro e he
    rw [hst'] at he
    rcases mem_alSet _ _ _ e he with h' | h'
    · rw [h']; exact Or.inl rfl
    · exact Or.inr h'

/-- Shape of a successful `addMessage`: the message validated, and the
session's list became its (possibly shifted) old list plus the new
message. -/
theorem addMessage_ok_shape (cfg : SessionStoreConfig) (st : Store) (sid : String)
    (m : Json) (now : Int) (st' : Store)
    (h : addMessage cfg st sid m now = .ok st') :
    validateMessage m = none ∧ ∃ sess, alGet st sid = some sess ∧
      st' = alSet st sid
        { sess with
          messages :=
            (if sess.messages.length ≥ cfg.maxMessagesPerSession then
              sess.messages.tail else sess.messages) ++ [m]
          lastActivity := now } := by
  cases hget : alGet st sid with
  | none => simp [addMessage, hget] at h
  | some sess =>
      cases hval : validateMessage m with
      | some reason => simp [addMessage, hget, hval] at h
      | none =>
          refine ⟨rfl, sess, rfl, ?_⟩
          simp only [addMessage, hget, hval] at h
          exact (Except.ok.inj h).symm

/-- Shape of a successful `updateMetadata`: messages are untouched. -/
theorem updateMetadata_ok_shape (st : Store) (sid : String)
    (patch : List (String × Json)) (now : Int) (st' : Store)
    (h : updateMetadata st sid patch now = .ok st') :
    ∃ sess, alGet st sid = some sess ∧
      st' = alSet st sid
        { sess with metadata := spreadMerge sess.metadata patch, lastActivity := now } := by
  cases hget : alGet st sid with
  | none => simp [updateMetadata, hget] at h
  | some sess =>
      refine ⟨sess, rfl, ?_⟩
      simp only [updateMetadata, hget] at h
      exact (Except.ok.inj h).symm

/-- One public mutating operation of the store, with its runtime inputs. -/
inductive StoreOp where
  | create (providedId : Option String) (freshId : String) (now : Int)
  | add (sessionId : String) (message : Json) (now : Int)
  | delete (sessionId : String)
  | updateMeta (sessionId : String) (patch : List (String × Json)) (now : Int)
  | cleanup (ttlMs : Int) (now : Int)
  | clear

/-- Apply one operation; a thrown error leaves the store unchanged (every
operation throws before mutating). -/
def applyOp (cfg : SessionStoreConfig) (st : Store) : StoreOp → Store
  | .create providedId freshId now =>
      match createSession cfg st providedId freshId now with
      | .ok (st', _) => st'
      | .error _ => st
  | .add sid m now =>
      match addMessage cfg st sid m now with
      | .ok st' => st'
      | .error _ => st
  | .delete sid => (deleteSession st sid).2
  | .updateMeta sid patch now =>
      match updateMetadata st sid patch now with
      | .ok st' => st'
      | .error _ => st
  | .cleanup ttl now => (cleanupStaleSessions st ttl now).2
  | .clear => []

/-- Every message held anywhere in the store passes `validateMessage`. -/
def MsgsValid (st : Store) : Prop :=
  ∀ e ∈ st, ∀ m ∈ e.2.messages, validateMessage m = none

theorem applyOp_preserves_MsgsValid (cfg : SessionStoreConfig) (st : Store)
    (op : StoreOp) (h : MsgsValid st) : MsgsValid (applyOp cfg st op) := by
  cases op with
  | create providedId freshId now =>
      cases hc : createSession cfg st providedId freshId now with
      | error e => simpa [applyOp, hc] using h
      | ok p =>
          obtain ⟨st', sess⟩ := p
          intro e he m hm
          simp only [applyOp, hc] at he
          rcases createSession_ok_mem cfg st providedId freshId now st' sess hc e he with
            hnil | hmem
          · rw [hnil] at hm; simp at hm
          · exact h e hmem m hm
  | add sid msg now =>
      cases hc : addMessage cfg st sid msg now with
      | error e => simpa [applyOp, hc] using h
      | ok st' =>
          intro e he m hm
          simp only [applyOp, hc] at he
          obtain ⟨hval, sess, hget, hst'⟩ := addMessage_ok_shape cfg st sid msg now st' hc
          rw [hst'] at he
          rcases mem_alSet _ _ _ e he with h' | h'
          · rw [h'] at hm
            simp only at hm
            rcases List.mem_append.mp hm with hm | hm
            · have hsub : m ∈ sess.messages := by
                by_cases hlen : sess.messages.length ≥ cfg.maxMessagesPerSession
                · rw [if_pos hlen] at hm
                  exact List.mem_of_mem_tail hm
                · rw [if_neg hlen] at hm
                  exact hm
              exact h (sid, sess) (alGet_mem st sid sess hget) m hsub
            · rw [List.mem_singleton] at hm
              rw [hm]
              exact hval
          · exact h e h' m hm
  | delete sid =>
      intro e he m hm
      simp only [applyOp, deleteSession] at he
      exact h e (mem_alDelete _ _ _ he) m hm
  | updateMeta sid patch now =>
      cases hc : updateMetadata st sid patch now with
      | error e => simpa [applyOp, hc] using h
      | ok st' =>
          intro e he m hm
          simp only [applyOp, hc] at he
          obtain ⟨sess, hget, hst'⟩ := updateMetadata_ok_shape st sid patch now st' hc
          rw [hst'] at he
          rcases mem_alSet _ _ _ e he with h' | h'
          · rw [h'] at hm
            simp only at hm
            exact h (sid, sess) (alGet_mem st sid sess hget) m hm
          · exact h e h' m hm
  | cleanup ttl now =>
      intro e he m hm
      simp only [applyOp] at he
      have := (c3_cleanupStaleSessions_exact st ttl now).1
      rw [this] at he
      exact h e (List.mem_filter.mp he).1 m hm
  | clear =>
      intro e he
      simp [applyOp] at he

/-- C8 (amended): every message held in any session after an arbitrary
sequence of store operations passes the source validation — it has a
non-empty string id, role `user` or `assistant`, string content and a
strictly positive timestamp.  (The content need not be non-empty after
trimming: validation only checks `typeof content === 'string'`.) -/
theorem c8_stored_messages_validated (cfg : SessionStoreConfig)
    (trace : List StoreOp) (e : String × Session)
    (he : e ∈ trace.foldl (applyOp cfg) [])
    (m : Json) (hm : m ∈ e.2.messages) :
    validateMessage m = none ∧
    (∃ s, jsField m "id" = some (.str s) ∧ s ≠ "") ∧
    (jsField m "role" = some (.str "user") ∨ jsField m "role" = some (.str "assistant")) ∧
    (∃ s, jsField m "content" = some (.str s)) ∧
    (∃ t, jsField m "timestamp" = some (.num t) ∧ 0 < t) := by
  have hfold : ∀ (ops : List StoreOp) (st : Store), MsgsValid st →
      MsgsValid (ops.foldl (applyOp cfg) st) := by
    intro ops
    induction ops with
    | nil => intro st hst; exact hst
    | cons op rest ih =>
        intro st hst
        exact ih (applyOp cfg st op) (applyOp_preserves_MsgsValid cfg st op hst)
  have hval : validateMessage m = none :=
    hfold trace [] (by intro e' he'; simp at he') e he m hm
  exact ⟨hval, validateMessage_none_spec m hval⟩

/-- Whitespace trimming of a string (the behavior of JS
`String.prototype.trim`), written over the character list so that it
reduces definitionally. -/
def jsTrim (s : String) : String :=
  (((s.data.dropWhile Char.isWhitespace).reverse.dropWhile Char.isWhitespace).reverse).asString

/-- The invariant claimed by the spec for stored message content: it is
non-empty after trimming.  (Stated from the spec's words, to be refuted on
the code.) -/
def specContentNonempty (m : Json) : Prop :=
  ∃ s, jsField m "content" = some (.str s) ∧ jsTrim s ≠ ""

/-- A message whose content is the empty string but which passes every
check in `validateMessage`. -/
def emptyContentMsg : Json :=
  .obj [("id", .str "m1"), ("role", .str "user"), ("content", .str ""),
        ("timestamp", .num 5)]

/-- The session state actually stored after appending `emptyContentMsg`. -/
def storedSession8 : Session :=
  { id := "s", messages := [emptyContentMsg], createdAt := 1, lastActivity := 2,
    metadata := [] }

/-- Counterexample for C8: `addMessage` accepts a message with empty
content — validation only checks that content is a string — so a stored
message can violate the claimed "content non-empty after trimming"
invariant. -/
theorem c8_counterexample :
    validateMessage emptyContentMsg = none ∧
    addMessage DEFAULT_CONFIG [("s", freshSession "s" 1)] "s" emptyContentMsg 2 =
      .ok [("s", storedSession8)] ∧
    emptyContentMsg ∈ storedSession8.messages ∧
    ¬ specContentNonempty emptyContentMsg := by
  refine ⟨rfl, rfl, List.mem_singleton.mpr rfl, ?_⟩
  rintro ⟨s, hs, hne⟩
  have h1 : Json.str "" = Json.str s := Option.some.inj hs
  have hs' : s = "" := (Json.str.inj h1).symm
  rw [hs'] at hne
  exact hne rfl

/-- Witness for C8's amended theorem at a concrete trace: create a
session, add one valid message, and read the guarantees off the stored
message. -/
theorem c8_witness :
    (("s", storedSession8) ∈
       [StoreOp.create (some "s") "f" 1,
        StoreOp.add "s" emptyContentMsg 2].foldl (applyOp DEFAULT_CONFIG) [] ∧
     emptyContentMsg ∈ storedSession8.messages) ∧
    (validateMessage emptyContentMsg = none ∧
     (∃ s, jsField emptyContentMsg "id" = some (.str s) ∧ s ≠ "") ∧
     (jsField emptyContentMsg "role" = some (.str "user") ∨
      jsField emptyContentMsg "role" = some (.str "assistant")) ∧
     (∃ s, jsField emptyContentMsg "content" = some (.str s)) ∧
     (∃ t, jsField emptyContentMsg "timestamp" = some (.num t) ∧ 0 < t)) := by
  have hmem : ("s", storedSession8) ∈
      [StoreOp.create (some "s") "f" 1,
       StoreOp.add "s" emptyContentMsg 2].foldl (applyOp DEFAULT_CONFIG) [] := by
    show ("s", storedSession8) ∈ [("s", storedSession8)]
    exact List.mem_singleton.mpr rfl
  exact ⟨⟨hmem, List.mem_singleton.mpr rfl⟩,
    c8_stored_messages_validated DEFAULT_CONFIG
      [StoreOp.create (some "s") "f" 1, StoreOp.add "s" emptyContentMsg 2]
      _ hmem emptyContentMsg (List.mem_singleton.mpr rfl)⟩

/-! C4: the `ConnectionManager` (websocket/connection-manager.ts).  A
socket is modelled by its `readyState` (the numeric `ws` constants) and by
whether `socket.send` would throw on this call. -/

/-- A transport handle: `readyState` uses the `ws` numeric constants
(`OPEN = 1`); `sendThrows` models whether the underlying write throws. -/
structure WSocket where
  readyState : Nat
  sendThrows : Bool
deriving Repr, DecidableEq

/-- The `WebSocket.OPEN` ready-state constant. -/
def WSocket.OPEN : Nat := 1

/-- The `WebSocket.CLOSED` ready-state constant. -/
def WSocket.CLOSED : Nat := 3

/-- `ConnectionInfo` from websocket/types.ts. -/
structure ConnectionInfo where
  sessionId : String
  socket : WSocket
  connectedAt : Int
deriving Repr, DecidableEq

/-- The manager's internal `Map<string, ConnectionInfo>`. -/
abbrev ConnMap := List (String × ConnectionInfo)

/-- `ConnectionManager.getSocket`. -/
def getSocket (cm : ConnMap) (sessionId : String) : Option WSocket :=
  (alGet cm sessionId).map ConnectionInfo.socket

/-- `ConnectionManager.removeConnection`. -/
def removeConnection (cm : ConnMap) (sessionId : String) : Bool × ConnMap :=
  ((alGet cm sessionId).isSome, alDelete cm sessionId)

/-- `ConnectionManager.sendToSession`: returns the success flag and the
updated connection map.  The mapping is removed only in the branch where
the write throws. -/
def sendToSession (cm : ConnMap) (sessionId : String) (payload : String) :
    Bool × ConnMap :=
  match getSocket cm sessionId with
  | none => (false, cm)
  | some socket =>
      if socket.readyState ≠ WSocket.OPEN then (false, cm)
      else if socket.sendThrows then (false, alDelete cm sessionId)
      else (true, cm)

/-- A connection whose socket is in the `CLOSED` state. -/
def closedConn : ConnectionInfo :=
  { sessionId := "s", socket := { readyState := WSocket.CLOSED, sendThrows := false },
    connectedAt := 0 }

/-- Counterexample for C4: with a registered but closed socket, the send
fails yet the mapping for the id is NOT removed — the registry still holds
it afterwards, contradicting "in every failure case the mapping is
removed". -/
theorem c4_counterexample :
    (sendToSession [("s", closedConn)] "s" "payload").1 = false ∧
    (sendToSession [("s", closedConn)] "s" "payload").2 = [("s", closedConn)] ∧
    alGet (sendToSession [("s", closedConn)] "s" "payload").2 "s" = some closedConn := by
  refine ⟨rfl, rfl, rfl⟩

theorem alGet_alDelete_self {β : Type} (cm : List (String × β)) (k : String)
    (hnodup : (cm.map Prod.fst).Nodup) : alGet (alDelete cm k) k = none := by
  induction cm with
  | nil => rfl
  | cons hd rest ih =>
      obtain ⟨k', v⟩ := hd
      simp only [List.map_cons, List.nodup_cons] at hnodup
      by_cases hk : k' = k
      · simp only [alDelete, if_pos hk]
        cases hrest : alGet rest k with
        | none => rfl
        | some v' =>
            exfalso
            subst hk
            exact hnodup.1 (List.mem_map.mpr ⟨(k', v'), alGet_mem rest k' v' hrest, rfl⟩)
      · simp only [alDelete, if_neg hk, alGet, if_neg hk]
        exact ih hnodup.2

/-- C4 (amended): `sendToSession` fails in exactly the three cases — no
mapping, transport not open, write throws — and the mapping is removed
only in the write-throws case (it is absent anyway when there was no
mapping, and it is retained when the transport is merely not open). -/
theorem c4_sendToSession_cases (cm : ConnMap) (sessionId payload : String)
    (hnodup : (cm.map Prod.fst).Nodup) :
    (alGet cm sessionId = none →
       sendToSession cm sessionId payload = (false, cm)) ∧
    (∀ c, alGet cm sessionId = some c → c.socket.readyState ≠ WSocket.OPEN →
       sendToSession cm sessionId payload = (false, cm) ∧
       alGet (sendToSession cm sessionId payload).2 sessionId = some c) ∧
    (∀ c, alGet cm sessionId = some c → c.socket.readyState = WSocket.OPEN →
       c.socket.sendThrows = true →
       sendToSession cm sessionId payload = (false, alDelete cm sessionId) ∧
       alGet (sendToSession cm sessionId payload).2 sessionId = none) ∧
    (∀ c, alGet cm sessionId = some c → c.socket.readyState = WSocket.OPEN →
       c.socket.sendThrows = false →
       sendToSession cm sessionId payload = (true, cm)) := by
  refine ⟨?_, ?_, ?_, ?_⟩
  · intro h
    simp [sendToSession, getSocket, h]
  · intro c hc hstate
    have heq : sendToSession cm sessionId payload = (false, cm) := by
      simp [sendToSession, getSocket, hc, hstate]
    exact ⟨heq, by rw [heq]; exact hc⟩
  · intro c hc hstate hthrows
    have heq : sendToSession cm sessionId payload = (false, alDelete cm sessionId) := by
      simp [sendToSession, getSocket, hc, hstate, hthrows]
    refine ⟨heq, ?_⟩
    rw [heq]
    exact alGet_alDelete_self cm sessionId hnodup
  · intro c hc hstate hthrows
    simp [sendToSession, getSocket, hc, hstate, hthrows]

/-- A connection whose socket is open but whose write throws. -/
def throwConn : ConnectionInfo :=
  { sessionId := "t", socket := { readyState := WSocket.OPEN, sendThrows := true },
    connectedAt := 0 }

/-- Witness for C4's amended theorem: a one-entry registry with an open,
throwing socket; the send fails and the mapping is gone. -/
theorem c4_witness :
    (([("t", throwConn)].map Prod.fst).Nodup ∧
     alGet [("t", throwConn)] "t" = some throwConn ∧
     throwConn.socket.readyState = WSocket.OPEN ∧
     throwConn.socket.sendThrows = true) ∧
    (sendToSession [("t", throwConn)] "t" "p" =
       (false, alDelete [("t", throwConn)] "t") ∧
     alGet (sendToSession [("t", throwConn)] "t" "p").2 "t" = none) := by
  refine ⟨⟨by simp, rfl, rfl, rfl⟩, ?_⟩
  exact (c4_sendToSession_cases [("t", throwConn)] "t" "p" (by simp)).2.2.1
    throwConn rfl rfl rfl

/-! C5, C6: server message frames (websocket/types.ts), the message
handler (websocket/message-handler.ts), and the stream broadcaster
(websocket/stream-broadcaster.ts). -/

/-- `ServerMessageType` from websocket/types.ts. -/
inductive ServerMessageType where
  | stream_start
  | stream_chunk
  | stream_end
  | error
  | connection_established
deriving Repr, DecidableEq, BEq

/-- `ServerMessage` from websocket/types.ts. -/
structure ServerMessage where
  type : ServerMessageType
  sessionId : String
  content : Option String
  error : Option String
deriving Repr, DecidableEq

/-- `validateClientMessage`: the runtime type guard for inbound frames.
`typeof message === 'object'` admits objects and arrays (property access
on an array yields `undefined`, failing the field checks); `null` is
excluded explicitly. -/
def validateClientMessage (j : Json) : Bool :=
  (match j with
   | .obj _ => true
   | .arr _ => true
   | _ => false) &&
  (match jsField j "type" with
   | some (.str t) => t == "user_message"
   | _ => false) &&
  isStr (jsField j "content") &&
  isStr (jsField j "sessionId")

/-- The error text returned when a frame parses as JSON but fails the
schema guard. -/
def INVALID_FORMAT_MSG : String :=
  "Invalid message format. Expected: \x7b type: \"user_message\", content: string, sessionId: string \x7d"

/-- `parseClientMessage`.  The raw inbound text is represented by its
`JSON.parse` outcome: `none` when parsing throws, `some j` when it yields
the value `j`. -/
def parseClientMessage (raw : Option Json) : Except String Json :=
  match raw with
  | none => .error "Invalid JSON format"
  | some j =>
      if validateClientMessage j then .ok j else .error INVALID_FORMAT_MSG

mutual

/-- JS template-literal stringification of a value, as in
`` `Unknown message type: ${(message as any).type}` ``. -/
def jsTemplate : Option Json → String
  | none => "undefined"
  | some .null => "null"
  | some (.bool true) => "true"
  | some (.bool false) => "false"
  | some (.num n) => toString n
  | some (.str s) => s
  | some (.arr xs) => jsTemplateList xs
  | some (.obj _) => "[object Object]"

/-- Array stringification: elements joined by commas. -/
def jsTemplateList : List Json → String
  | [] => ""
  | [x] => jsTemplate (some x)
  | x :: y :: rest => jsTemplate (some x) ++ "," ++ jsTemplateList (y :: rest)

end

/-- An `error` frame as built by `MessageHandler.handleMessage`. -/
def errorFrame (sessionId err : String) : ServerMessage :=
  { type := .error, sessionId := sessionId, content := none, error := some err }

/-- Result of `MessageHandler.handleMessage`. -/
inductive HandleResult where
  | success
  | failure (err : ServerMessage)
deriving Repr, DecidableEq

/-- `MessageHandler.handleMessage`.  The registered user-message handler
is `none` when absent; a registered handler returns `.error (some msg)`
when it throws an `Error` with that message and `.error none` when it
throws a non-`Error` value (triggering the generic fallback text). -/
def handleMessage (raw : Option Json) (sessionId : String)
    (handler : Option (Json → String → Except (Option String) Unit)) : HandleResult :=
  match parseClientMessage raw with
  | .error e => .failure (errorFrame sessionId e)
  | .ok message =>
      if (match jsField message "type" with
          | some (.str t) => t == "user_message"
          | _ => false) then
        match handler with
        | none => .failure (errorFrame sessionId "Server not ready to handle messages")
        | some h =>
            match h message sessionId with
            | .ok _ => .success
            | .error em =>
                .failure (errorFrame sessionId (em.getD "Failed to process message"))
      else
        .failure (errorFrame sessionId
          ("Unknown message type: " ++ jsTemplate (jsField message "type")))

/-- A frame that parses as JSON and has string `content` and `sessionId`
but an unknown `type` discriminator `chat`. -/
def unknownTypeFrame : Json :=
  .obj [("type", .str "chat"), ("content", .str "hi"), ("sessionId", .str "abc")]

/-- Counterexample for C5: a frame with unknown type `chat` is rejected by
the schema guard, so the router answers with the "Invalid message format"
error, not with "Unknown message type: chat" as the claim states. -/
theorem c5_counterexample :
    handleMessage (some unknownTypeFrame) "abc" none =
      .failure (errorFrame "abc" INVALID_FORMAT_MSG) ∧
    INVALID_FORMAT_MSG ≠ "Unknown message type: chat" := by
  exact ⟨rfl, by decide⟩

theorem validateClientMessage_type (j : Json) (h : validateClientMessage j = true) :
    jsField j "type" = some (.str "user_message") := by
  simp only [validateClientMessage, Bool.and_eq_true] at h
  obtain ⟨⟨⟨_, htype⟩, _⟩, _⟩ := h
  cases hf : jsField j "type" with
  | none => rw [hf] at htype; simp at htype
  | some v =>
      cases v with
      | str t =>
          rw [hf] at htype
          simp only [beq_iff_eq] at htype
          rw [htype]
      | null => rw [hf] at htype; simp at htype
      | bool b => rw [hf] at htype; simp at htype
      | num n => rw [hf] at htype; simp at htype
      | arr xs => rw [hf] at htype; simp at htype
      | obj fs => rw [hf] at htype; simp at htype

/-- C5 (amended): the router fails closed with exactly two reachable error
frames — unparseable text yields "Invalid JSON format", and JSON that
fails the schema guard (including any frame whose `type` is not
`user_message`) yields the "Invalid message format. Expected: …" frame.
A frame passing the guard always has type `user_message`, so the
"Unknown message type: X" branch is dead code and the result is exactly
the routing outcome of the registered handler. -/
theorem c5_handleMessage_fails_closed (raw : Option Json) (sessionId : String)
    (handler : Option (Json → String → Except (Option String) Unit)) :
    (raw = none →
       handleMessage raw sessionId handler =
         .failure (errorFrame sessionId "Invalid JSON format")) ∧
    (∀ j, raw = some j → validateClientMessage j = false →
       handleMessage raw sessionId handler =
         .failure (errorFrame sessionId INVALID_FORMAT_MSG)) ∧
    (∀ j, raw = some j → validateClientMessage j = true →
       jsField j "type" = some (.str "user_message") ∧
       handleMessage raw sessionId handler =
         match handler with
         | none => .failure (errorFrame sessionId "Server not ready to handle messages")
         | some h =>
             match h j sessionId with
             | .ok _ => .success
             | .error em =>
                 .failure (errorFrame sessionId (em.getD "Failed to process message"))) := by
  refine ⟨?_, ?_, ?_⟩
  · intro h
    rw [h]
    rfl
  · intro j hj hvalid
    rw [hj]
    simp [handleMessage, parseClientMessage, hvalid]
  · intro j hj hvalid
    have htype := validateClientMessage_type j hvalid
    refine ⟨htype, ?_⟩
    rw [hj]
    simp only [handleMessage, parseClientMessage, hvalid, if_true, htype]
    cases handler with
    | none => simp
    | some h =>
        cases hres : h j sessionId with
        | ok u => simp [hres]
        | error em => simp [hres]

/-- Witness for C5's amended theorem: unparseable input produces the
"Invalid JSON format" frame. -/
theorem c5_witness :
    (none : Option Json) = none ∧
    handleMessage none "w" none = .failure (errorFrame "w" "Invalid JSON format") :=
  ⟨rfl, (c5_handleMessage_fails_closed none "w" none).1 rfl⟩

/-! C6: the stream broadcaster.  The upstream token stream is abstracted
as the list of text deltas it produced together with an optional failure
(the source mocks the upstream behind the same try/catch; the catch block
and frame construction are taken from the source). -/

/-- The `stream_start` frame built by `broadcastStreamStart`. -/
def streamStartMsg (sessionId : String) : ServerMessage :=
  { type := .stream_start, sessionId := sessionId,
    content := some "Starting response stream", error := none }

/-- The `stream_chunk` frame built by `broadcastStreamChunk`. -/
def streamChunkMsg (sessionId content : String) : ServerMessage :=
  { type := .stream_chunk, sessionId := sessionId,
    content := some content, error := none }

/-- The `stream_end` frame built by `broadcastStreamEnd`. -/
def streamEndMsg (sessionId : String) : ServerMessage :=
  { type := .stream_end, sessionId := sessionId,
    content := some "Response stream complete", error := none }

/-- The `error` frame built by `broadcastError`. -/
def broadcastErrorMsg (sessionId err : String) : ServerMessage :=
  { type := .error, sessionId := sessionId, content := none, error := some err }

/-- A crude `JSON.stringify` for outbound frames.  `sendToSession` never
inspects its payload, so the precise escaping rules of the real
`JSON.stringify` are immaterial to every stated property. -/
def serializeServerMessage (m : ServerMessage) : String :=
  "\x7b\"type\":\"" ++ (toString (repr m.type)) ++ "\",\"sessionId\":\"" ++ m.sessionId ++ "\"\x7d"

/-- `StreamBroadcaster.broadcastStreamStart` (returns the send success and
the updated registry). -/
def broadcastStreamStart (cm : ConnMap) (sessionId : String) : Bool × ConnMap :=
  sendToSession cm sessionId (serializeServerMessage (streamStartMsg sessionId))

/-- `StreamBroadcaster.broadcastStreamChunk`. -/
def broadcastStreamChunk (cm : ConnMap) (sessionId content : String) : Bool × ConnMap :=
  sendToSession cm sessionId (serializeServerMessage (streamChunkMsg sessionId content))

/-- `StreamBroadcaster.broadcastStreamEnd`. -/
def broadcastStreamEnd (cm : ConnMap) (sessionId : String) : Bool × ConnMap :=
  sendToSession cm sessionId (serializeServerMessage (streamEndMsg sessionId))

/-- `StreamBroadcaster.broadcastError`. -/
def broadcastError (cm : ConnMap) (sessionId err : String) : Bool × ConnMap :=
  sendToSession cm sessionId (serializeServerMessage (broadcastErrorMsg sessionId err))

/-- The value thrown by a failing upstream: `message` is `some m` for an
`Error` carrying message `m`, `none` for a non-`Error` throw (the catch
then uses the generic fallback text). -/
structure UpstreamFailure where
  message : Option String
deriving Repr, DecidableEq

/-- One run of the upstream stream: the deltas it emitted, then either
normal completion (`failure = none`) or a thrown failure. -/
structure UpstreamRun where
  deltas : List String
  failure : Option UpstreamFailure
deriving Repr, DecidableEq

/-- Result of `streamResponseToClient`: the frames handed to
`sendToSession` in order, the final registry, the argument passed to the
completion callback (`none` when the callback was not invoked), and the
re-raised failure (`none` on normal completion). -/
structure StreamResult where
  frames : List ServerMessage
  cm : ConnMap
  completion : Option String
  raised : Option UpstreamFailure

/-- Forward each delta as a `stream_chunk` frame, threading the registry;
returns the frames attempted. -/
def sendChunks (cm : ConnMap) (sessionId : String) :
    List String → ConnMap × List ServerMessage
  | [] => (cm, [])
  | d :: rest =>
      let r1 := broadcastStreamChunk cm sessionId d
      let r2 := sendChunks r1.2 sessionId rest
      (r2.1, streamChunkMsg sessionId d :: r2.2)

/-- `StreamBroadcaster.streamResponseToClient`: `stream_start`, one
`stream_chunk` per delta, then on normal completion `stream_end` plus the
completion callback with the accumulated text, and on failure a single
`error` frame followed by re-raising the failure (no completion). -/
def streamResponseToClient (cm : ConnMap) (sessionId : String) (run : UpstreamRun) :
    StreamResult :=
  let r1 := broadcastStreamStart cm sessionId
  let r2 := sendChunks r1.2 sessionId run.deltas
  match run.failure with
  | none =>
      let r3 := broadcastStreamEnd r2.1 sessionId
      { frames := streamStartMsg sessionId :: r2.2 ++ [streamEndMsg sessionId]
        cm := r3.2
        completion := some (String.join run.deltas)
        raised := none }
  | some f =>
      let emsg := f.message.getD "Unknown streaming error"
      let r3 := broadcastError r2.1 sessionId emsg
      { frames := streamStartMsg sessionId :: r2.2 ++ [broadcastErrorMsg sessionId emsg]
        cm := r3.2
        completion := none
        raised := some f }

theorem sendChunks_frames (sessionId : String) :
    ∀ (ds : List String) (cm : ConnMap),
      (sendChunks cm sessionId ds).2 = ds.map (streamChunkMsg sessionId) := by
  intro ds
  induction ds with
  | nil => intro cm; rfl
  | cons d rest ih =>
      intro cm
      simp [sendChunks, ih]

/-- C6: whenever the upstream fails, `streamResponseToClient` sends
exactly one `error` frame, every frame it sent carries the session's id,
the completion callback is never invoked, and the failure is re-raised to
the caller. -/
theorem c6_stream_failure (cm : ConnMap) (sessionId : String) (run : UpstreamRun)
    (f : UpstreamFailure) (hfail : run.failure = some f) :
    ((streamResponseToClient cm sessionId run).frames.filter
        (fun m => m.type == ServerMessageType.error)).length = 1 ∧
    (streamResponseToClient cm sessionId run).completion = none ∧
    (streamResponseToClient cm sessionId run).raised = some f ∧
    (∀ m ∈ (streamResponseToClient cm sessionId run).frames, m.sessionId = sessionId) := by
  have hframes : (streamResponseToClient cm sessionId run).frames =
      streamStartMsg sessionId ::
        run.deltas.map (streamChunkMsg sessionId) ++
        [broadcastErrorMsg sessionId (f.message.getD "Unknown streaming error")] := by
    simp [streamResponseToClient, hfail, sendChunks_frames]
  refine ⟨?_, ?_, ?_, ?_⟩
  · rw [hframes, List.filter_append]
    have hse : List.filter (fun m => m.type == ServerMessageType.error)
        (streamStartMsg sessionId :: run.deltas.map (streamChunkMsg sessionId)) = [] := by
      rw [List.filter_eq_nil_iff]
      intro m hm
      rcases List.mem_cons.mp hm with hm | hm
      · rw [hm]
        exact Bool.false_ne_true
      · obtain ⟨d, _, hd⟩ := List.mem_map.mp hm
        rw [← hd]
        exact Bool.false_ne_true
    rw [hse]
    rfl
  · simp [streamResponseToClient, hfail]
  · simp [streamResponseToClient, hfail]
  · intro m hm
    rw [hframes] at hm
    rcases List.mem_append.mp hm with hm | hm
    · rcases List.mem_cons.mp hm with hm | hm
      · rw [hm]; rfl
      · obtain ⟨d, _, hd⟩ := List.mem_map.mp hm
        rw [← hd]; rfl
    · rw [List.mem_singleton.mp hm]; rfl

/-- Witness for C6: one delta then an upstream `Error` with message
`quota`; one error frame, no completion, failure re-raised. -/
theorem c6_witness :
    (({ deltas := ["hel"], failure := some { message := some "quota" } } :
        UpstreamRun).failure = some { message := some "quota" }) ∧
    (((streamResponseToClient [] "s"
        { deltas := ["hel"], failure := some { message := some "quota" } }).frames.filter
          (fun m => m.type == ServerMessageType.error)).length = 1 ∧
     (streamResponseToClient [] "s"
        { deltas := ["hel"], failure := some { message := some "quota" } }).completion = none ∧
     (streamResponseToClient [] "s"
        { deltas := ["hel"], failure := some { message := some "quota" } }).raised =
       some { message := some "quota" } ∧
     (∀ m ∈ (streamResponseToClient [] "s"
        { deltas := ["hel"], failure := some { message := some "quota" } }).frames,
        m.sessionId = "s")) :=
  ⟨rfl, c6_stream_failure [] "s"
    { deltas := ["hel"], failure := some { message := some "quota" } }
    { message := some "quota" } rfl⟩

/-! C7: reconnect scheduling in the browser `WebSocketClient`
(packages/web/src/lib/websocket-client.ts).  Intervals and the decay are
naturals (the source's concrete values are integers and `Math.pow` on them
is exact). -/

/-- `WebSocketOptions` with all fields filled in from `DEFAULT_OPTIONS`. -/
structure WebSocketOptions where
  reconnect : Bool
  reconnectInterval : Nat
  reconnectDecay : Nat
  maxReconnectAttempts : Nat
  maxReconnectInterval : Nat
  timeout : Nat
deriving Repr, DecidableEq

/-- `DEFAULT_OPTIONS` from websocket-client.ts. -/
def DEFAULT_OPTIONS : WebSocketOptions :=
  { reconnect := true
    reconnectInterval := 1000
    reconnectDecay := 2
    maxReconnectAttempts := 10
    maxReconnectInterval := 30000
    timeout := 5000 }

/-- `ConnectionState` from websocket-types.ts. -/
inductive ConnectionState where
  | disconnected
  | connecting
  | connected
  | reconnecting
deriving Repr, DecidableEq

/-- Events emitted by `scheduleReconnect`. -/
inductive ClientEvent where
  | errorMaxAttempts (max : Nat)
  | reconnecting (attempt : Nat) (delay : Nat)
deriving Repr, DecidableEq

/-- The client state touched by `scheduleReconnect`: the connection state,
the attempt counter, and the pending reconnect timer's delay (the
`reconnectTimeout` handle, `none` when no attempt is scheduled). -/
structure WSClientState where
  state : ConnectionState
  reconnectAttempts : Nat
  reconnectTimeout : Option Nat
deriving Repr, DecidableEq

/-- `WebSocketClient.scheduleReconnect`: abandon with an `error` event
when the counter has reached `maxReconnectAttempts`; otherwise increment
the counter, compute the capped exponential delay and schedule the
attempt, emitting a `reconnecting` event. -/
def scheduleReconnect (o : WebSocketOptions) (c : WSClientState) :
    WSClientState × List ClientEvent :=
  if c.reconnectAttempts ≥ o.maxReconnectAttempts then
    (c, [.errorMaxAttempts o.maxReconnectAttempts])
  else
    let attempts := c.reconnectAttempts + 1
    let delay := min (o.reconnectInterval * o.reconnectDecay ^ (attempts - 1))
      o.maxReconnectInterval
    ({ state := .reconnecting, reconnectAttempts := attempts,
       reconnectTimeout := some delay },
     [.reconnecting attempts delay])

/-- C7: for attempt number `n ≥ 1` with `n ≤ maxReconnectAttempts`, the
scheduled delay is `min(baseInterval * decay^(n-1), maxInterval)` and the
counter is incremented to `n` before scheduling; once the counter would
exceed `maxReconnectAttempts` nothing is scheduled and an `error` event is
emitted instead; with the default options, attempts 1..6 give the delays
1000, 2000, 4000, 8000, 16000, 30000. -/
theorem c7_reconnect_backoff (o : WebSocketOptions) (c : WSClientState) (n : Nat)
    (hn : 1 ≤ n) (hc : c.reconnectAttempts = n - 1)
    (hmax : n ≤ o.maxReconnectAttempts) :
    (scheduleReconnect o c =
       ({ state := .reconnecting, reconnectAttempts := n,
          reconnectTimeout :=
            some (min (o.reconnectInterval * o.reconnectDecay ^ (n - 1))
              o.maxReconnectInterval) },
        [.reconnecting n (min (o.reconnectInterval * o.reconnectDecay ^ (n - 1))
              o.maxReconnectInterval)])) ∧
    (∀ c' : WSClientState, c'.reconnectAttempts ≥ o.maxReconnectAttempts →
       scheduleReconnect o c' = (c', [.errorMaxAttempts o.maxReconnectAttempts])) ∧
    (∀ m : Nat, 1 ≤ m → m ≤ 6 →
       (scheduleReconnect DEFAULT_OPTIONS
           { state := .disconnected, reconnectAttempts := m - 1,
             reconnectTimeout := none }).1.reconnectTimeout =
         some (List.get! [1000, 2000, 4000, 8000, 16000, 30000] (m - 1))) := by
  refine ⟨?_, ?_, ?_⟩
  · have hlt : ¬ c.reconnectAttempts ≥ o.maxReconnectAttempts := by omega
    have hn1 : n - 1 + 1 = n := by omega
    simp only [scheduleReconnect]
    rw [if_neg hlt, hc, hn1]
  · intro c' h
    simp [scheduleReconnect, h]
  · intro m h1 h6
    interval_cases m <;> rfl

/-- Witness for C7: the sixth attempt from counter 5 under default options
schedules the capped delay 30000. -/
theorem c7_witness :
    (1 ≤ 6 ∧ (6 : Nat) - 1 = 6 - 1 ∧ 6 ≤ DEFAULT_OPTIONS.maxReconnectAttempts) ∧
    scheduleReconnect DEFAULT_OPTIONS
        { state := .disconnected, reconnectAttempts := 5, reconnectTimeout := none } =
      ({ state := .reconnecting, reconnectAttempts := 6,
         reconnectTimeout :=
           some (min (DEFAULT_OPTIONS.reconnectInterval *
             DEFAULT_OPTIONS.reconnectDecay ^ (6 - 1)) DEFAULT_OPTIONS.maxReconnectInterval) },
       [.reconnecting 6 (min (DEFAULT_OPTIONS.reconnectInterval *
             DEFAULT_OPTIONS.reconnectDecay ^ (6 - 1)) DEFAULT_OPTIONS.maxReconnectInterval)]) :=
  ⟨⟨by decide, rfl, by decide⟩,
   (c7_reconnect_backoff DEFAULT_OPTIONS
      { state := .disconnected, reconnectAttempts := 5, reconnectTimeout := none }
      6 (by decide) rfl (by decide)).1⟩

/-! C9: aliasing of store-internal structures.  To make reference sharing
observable in a pure embedding, the message arrays live in an explicit
heap of array cells and a session holds a reference into it.
`getMessages` allocates a fresh cell holding a copy (`[...messages]`,
session-store.ts line 206); `getSession` (line 149) and `createSession`
(line 139) return the stored session record itself, whose `messagesRef`
is the store's own cell. -/

/-- A session in the aliasing model: `messagesRef` points at the heap cell
holding this session's messages array. -/
structure HSession where
  id : String
  messagesRef : Nat
  createdAt : Int
  lastActivity : Int
deriving Repr, DecidableEq

/-- The store together with an explicit heap of JS array cells. -/
structure HStore where
  heap : List (List Json)
  sessions : List (String × HSession)
deriving Repr

/-- Read an array cell. -/
def heapGet (h : List (List Json)) (r : Nat) : List Json := h.getD r []

/-- Overwrite an array cell in place. -/
def heapSet (h : List (List Json)) (r : Nat) (v : List Json) : List (List Json) :=
  h.set r v

/-- `createSession` in the aliasing model: allocate a fresh empty array
cell and return the very record that was stored. -/
def hCreateSession (st : HStore) (id : String) (now : Int) : HStore × HSession :=
  let r := st.heap.length
  let sess : HSession := { id := id, messagesRef := r, createdAt := now, lastActivity := now }
  ({ heap := st.heap ++ [[]], sessions := alSet st.sessions id sess }, sess)

/-- `getSession`: hands back the stored record — its `messagesRef` is
shared with the store. -/
def hGetSession (st : HStore) (sessionId : String) : Option HSession :=
  alGet st.sessions sessionId

/-- `addMessage` (success path): `session.messages.push(message)` mutates
the session's own array cell. -/
def hAddMessage (st : HStore) (sessionId : String) (m : Json) (now : Int) : HStore :=
  match alGet st.sessions sessionId with
  | none => st
  | some sess =>
      { heap := heapSet st.heap sess.messagesRef (heapGet st.heap sess.messagesRef ++ [m])
        sessions := alSet st.sessions sessionId { sess with lastActivity := now } }

/-- `getMessages`: allocate a fresh cell holding a copy of the session's
array and hand back the fresh reference (`none` models the
`SessionNotFoundError` throw). -/
def hGetMessages (st : HStore) (sessionId : String) : Option (HStore × Nat) :=
  match alGet st.sessions sessionId with
  | none => none
  | some sess =>
      some ({ heap := st.heap ++ [heapGet st.heap sess.messagesRef]
              sessions := st.sessions }, st.heap.length)

/-- An external caller mutating, in place, an array it holds a reference
to (e.g. `arr.push(x)` on a returned value). -/
def extMutate (st : HStore) (r : Nat) (f : List Json → List Json) : HStore :=
  { st with heap := heapSet st.heap r (f (heapGet st.heap r)) }

/-- Well-formedness: stored sessions reference live heap cells. -/
def HStoreWF (st : HStore) : Prop :=
  ∀ e ∈ st.sessions, e.2.messagesRef < st.heap.length

/-- The store as it stands after `createSession("s")` at time 1. -/
def hst0 : HStore :=
  { heap := [[]],
    sessions := [("s", { id := "s", messagesRef := 0, createdAt := 1, lastActivity := 1 })] }

/-- The session record stored (and returned) for `"s"` in `hst0`. -/
def hsess0 : HSession := { id := "s", messagesRef := 0, createdAt := 1, lastActivity := 1 }

/-- Counterexample for C9: `getSession` hands out the internal session
record, so a caller pushing onto its `messages` array mutates the store's
own cell: a subsequent `getMessages` reports the pushed element.  The
claim that no public operation hands out an aliased internal structure is
false. -/
theorem c9_counterexample :
    (hCreateSession { heap := [], sessions := [] } "s" 1).1 = hst0 ∧
    (hCreateSession { heap := [], sessions := [] } "s" 1).2 = hsess0 ∧
    hGetSession hst0 "s" = some hsess0 ∧
    hsess0.messagesRef = 0 ∧
    hGetMessages hst0 "s" =
      some ({ heap := [[], []], sessions := hst0.sessions }, 1) ∧
    hGetMessages (extMutate hst0 hsess0.messagesRef (fun l => l ++ [Json.null])) "s" =
      some ({ heap := [[Json.null], [Json.null]], sessions := hst0.sessions }, 1) ∧
    ([Json.null] : List Json) ≠ [] := by
  refine ⟨rfl, rfl, rfl, rfl, rfl, rfl, ?_⟩
  intro h
  exact List.cons_ne_nil _ _ h

/-- C9 (amended): `getMessages` is a defensive copy — the reference it
returns is distinct from every stored session's reference, and mutating
through it leaves every session's stored messages unchanged — but
`getSession` returns the stored session record itself, so its
`messagesRef` aliases store-internal state. -/
theorem c9_getMessages_copy_getSession_alias (st : HStore) (sessionId : String)
    (hWF : HStoreWF st) :
    (∀ st' r, hGetMessages st sessionId = some (st', r) →
       st'.sessions = st.sessions ∧
       (∀ sid' sess', alGet st'.sessions sid' = some sess' → r ≠ sess'.messagesRef) ∧
       (∀ f sid' sess', alGet (extMutate st' r f).sessions sid' = some sess' →
          heapGet (extMutate st' r f).heap sess'.messagesRef =
            heapGet st.heap sess'.messagesRef)) ∧
    (∀ sess, hGetSession st sessionId = some sess → (sessionId, sess) ∈ st.sessions) := by
  constructor
  · intro st' r h
    cases hget : alGet st.sessions sessionId with
    | none => simp [hGetMessages, hget] at h
    | some sess =>
        simp only [hGetMessages, hget] at h
        have h' := (Option.some.inj h).symm
        rw [Prod.mk.injEq] at h'
        obtain ⟨hst', hr⟩ := h'
        refine ⟨by rw [hst'], ?_, ?_⟩
        · intro sid' sess' hsess'
          rw [hst'] at hsess'
          have hm := alGet_mem st.sessions sid' sess' hsess'
          have hlt : sess'.messagesRef < st.heap.length := hWF (sid', sess') hm
          rw [hr]
          omega
        · intro f sid' sess' hsess'
          simp only [extMutate, hst'] at hsess' ⊢
          have hm := alGet_mem st.sessions sid' sess' hsess'
          have hlt : sess'.messagesRef < st.heap.length := hWF (sid', sess') hm
          simp only [heapGet, heapSet, List.getD_eq_getElem?_getD]
          rw [hr]
          rw [List.getElem?_set_ne (by omega)]
          rw [List.getElem?_append_left hlt]
  · intro sess h
    exact alGet_mem st.sessions sessionId sess h

/-- Witness for C9's amended theorem at the concrete one-session store:
the copy returned by `getMessages` has a fresh reference, and writing
through it does not change the stored messages. -/
theorem c9_witness :
    HStoreWF hst0 ∧
    ((∀ st' r, hGetMessages hst0 "s" = some (st', r) →
       st'.sessions = hst0.sessions ∧
       (∀ sid' sess', alGet st'.sessions sid' = some sess' → r ≠ sess'.messagesRef) ∧
       (∀ f sid' sess', alGet (extMutate st' r f).sessions sid' = some sess' →
          heapGet (extMutate st' r f).heap sess'.messagesRef =
            heapGet hst0.heap sess'.messagesRef)) ∧
     (∀ sess, hGetSession hst0 "s" = some sess → ("s", sess) ∈ hst0.sessions)) := by
  have hWF : HStoreWF hst0 := by
    intro e he
    rw [List.mem_singleton.mp he]
    decide
  exact ⟨hWF, c9_getMessages_copy_getSession_alias hst0 "s" hWF⟩

end WebClaude
